
import Mathlib

/-!
Verification of the worklog repository's computational core against its
specification.

Shallow embedding conventions:
* Instants are modelled as `Int` milliseconds since the epoch.  The source
  stores times either as JS `Date` objects or Firestore `Timestamp`s
  (`{seconds}`); both denote instants and the source converts between them
  order-preservingly (`new Date(x.seconds * 1000)`), so the embedding works
  directly with the instant value.  Work-session records store whole seconds,
  and the embedding keeps them in seconds, converting with `* 1000` exactly
  where the source does.
* The owner-local calendar is modelled with a fixed UTC offset of zero: a
  calendar date is represented by its epoch-day number
  (`dayOf t = t.fdiv 86400000`).  The source's `getLocalDateString`
  (a `YYYY-MM-DD` string) is in bijection with this day number, and
  `setHours(0,0,0,0)` / `setHours(23,59,59,999)` / `setDate(getDate()+1)`
  become start-of-day, end-of-day and `+ dayMs` on instants.
* JS numbers are modelled as `ℚ` (exact arithmetic); the explicit
  `Math.round` calls of the source are modelled exactly (`⌊x + 1/2⌋`).
-/

/-- Milliseconds in one civil day. -/
def dayMs : Int := 86400000

/-- Epoch-day number of an instant (floor division, as JS local-date getters
behave for any sign of the timestamp under the fixed-offset model). -/
def dayOf (t : Int) : Int := t.fdiv dayMs

/-- Millisecond-of-day of an instant. -/
def msOfDay (t : Int) : Int := t.fmod dayMs

/-- Source `date.setHours(0,0,0,0)`: start of the instant's civil day. -/
def startOfDay (t : Int) : Int := dayOf t * dayMs

/-- Source `date.setHours(23,59,59,999)`: last millisecond of the instant's civil day. -/
def endOfDay (t : Int) : Int := dayOf t * dayMs + 86399999

/-- JS `Math.round`: round half toward positive infinity. -/
def jsRound (x : ℚ) : ℤ := ⌊x + 1/2⌋

/-! ## Interval overlap checker (`utils/timeUtils.ts`) -/

/-- A time range, `{ startTime, endTime }` (instants in ms). -/
structure TimeRange where
  startTime : Int
  endTime : Int
deriving Repr, DecidableEq

/-- Function `hasOverlap` from the current `timeUtils.ts`: the half-open test
`start1 < end2 && start2 < end1` (the `Date`/`Timestamp` coercions of the
source lines 56-59 are representation conversions to the common instant). -/
def hasOverlap (range1 range2 : TimeRange) : Bool :=
  decide (range1.startTime < range2.endTime) && decide (range2.startTime < range1.endTime)

/-- The three-clause pairwise test from the older overlap util (the body of the
`sessions.some` callback in its `hasOverlap`): candidate start inside existing,
or candidate end inside existing, or candidate encloses existing. -/
def hasOverlapV1 (newSession existingRange : TimeRange) : Bool :=
  (decide (existingRange.startTime ≤ newSession.startTime) &&
     decide (newSession.startTime < existingRange.endTime)) ||
  (decide (existingRange.startTime < newSession.endTime) &&
     decide (newSession.endTime ≤ existingRange.endTime)) ||
  (decide (newSession.startTime ≤ existingRange.startTime) &&
     decide (existingRange.endTime ≤ newSession.endTime))

/-- A stored work-session document as seen by the overlap checker. -/
structure SessionDoc where
  id : String
  startTime : Int
  endTime : Int
deriving Repr, DecidableEq

/-- The `sessions.some(session => hasOverlap(newSession, …))` scan of
`checkForSessionOverlap`. -/
def sessionsOverlap (sessions : List SessionDoc) (newSession : TimeRange) : Bool :=
  sessions.any fun s => hasOverlap newSession ⟨s.startTime, s.endTime⟩

/-- The `.filter(doc => excludeSessionId ? doc.id !== excludeSessionId : true)`
step of `checkForSessionOverlap`. -/
def filterExclude (docs : List SessionDoc) (excludeSessionId : Option String) :
    List SessionDoc :=
  docs.filter fun d =>
    match excludeSessionId with
    | some ex => decide (d.id ≠ ex)
    | none => true

/-- Pure core of `checkForSessionOverlap` (the Firestore fetch supplies
`docs`; the function then filters out the excluded id and scans). -/
def checkForSessionOverlap (docs : List SessionDoc) (startTime endTime : Int)
    (excludeSessionId : Option String) : Bool :=
  sessionsOverlap (filterExclude docs excludeSessionId) ⟨startTime, endTime⟩

/-! ## Session aggregator (`AnalyticsPage.tsx`, `chartData`) -/

/-- A fetched work session (`WorkSession` interface): Firestore timestamps in
whole seconds plus the 1-10 focus level. -/
structure WorkSession where
  startSeconds : Int
  endSeconds : Int
  focusLevel : ℚ
deriving Repr, DecidableEq

/-- One aggregated chart bucket (`ChartDataPoint`); `date` and
`comparisonDate` are epoch-day numbers standing for the source's local
`YYYY-MM-DD` strings. `previousHours`/`previousFocusLevel` are initialised to
`0` by the source's push, and `focusLevel` is a plain number there (not an
optional field). -/
structure ChartDataPoint where
  date : Int
  hours : ℚ
  focusLevel : ℚ
  isToday : Bool
  previousHours : ℚ
  previousFocusLevel : ℚ
  comparisonDate : Option Int
deriving Repr, DecidableEq

/-- Source `new Date(session.startTime.seconds * 1000)` as an instant. -/
def sessionStartMs (s : WorkSession) : Int := s.startSeconds * 1000

/-- Calendar day a session is attributed to (`getLocalDateString` of its
start). -/
def sessionDay (s : WorkSession) : Int := dayOf (sessionStartMs s)

/-- Source `Math.round((end.seconds - start.seconds) / 36) / 100`: the session
duration in hours, rounded to two decimals. -/
def durationInHours (s : WorkSession) : ℚ :=
  (jsRound ((s.endSeconds - s.startSeconds : ℤ) / 36 : ℚ) : ℚ) / 100

/-- Source `Math.round(x * 100) / 100`. -/
def round2 (x : ℚ) : ℚ := (jsRound (x * 100) : ℚ) / 100

/-- The requested window (`dateRange`); the source's field `end` is named
`stop` here because `end` is a Lean keyword. -/
structure DateRange where
  start : Int
  stop : Int
deriving Repr, DecidableEq

/-- Function `getPreviousPeriodDates`: previous period of identical length ending one
millisecond before the window start. -/
def getPreviousPeriodDates (start stop : Int) : DateRange :=
  { start := (start - 1) - (stop - start), stop := start - 1 }

/-- The `while (currentDate <= rangeEndDate)` loop of `chartData`, advancing
`currentDate` one civil day per iteration and collecting each visited instant.
Rendered with an explicit fuel that equals the exact number of iterations the
loop performs (`(stop - start).toNat / 86400000 + 1` when `start ≤ stop`);
when `start > stop` the first test fails and the result is `[]` whatever the
fuel. -/
def enumDates (start stop : Int) : List Int :=
  go ((stop - start).toNat / 86400000 + 1) start
where
  go : Nat → Int → List Int
  | 0, _ => []
  | n+1, cur => if cur ≤ stop then cur :: go n (cur + dayMs) else []

/-- The initial `dates.push({...})` skeleton of `chartData`: one zeroed point
per enumerated day, with `isToday` and (when comparison is on) the
`comparisonDate` derived from the window duration. -/
def basePoints (r : DateRange) (today : Int) (cmp : Bool) : List ChartDataPoint :=
  (enumDates r.start r.stop).map fun cur =>
    { date := dayOf cur
      hours := 0
      focusLevel := 0
      isToday := decide (dayOf cur = dayOf today)
      previousHours := 0
      previousFocusLevel := 0
      comparisonDate := if cmp then some (dayOf (cur - (r.stop - r.start))) else none }

/-- Current-period filter: window bounds normalised to start/end of day
(`rangeStart.setHours(0,0,0,0)`, `rangeEnd.setHours(23,59,59,999)`). -/
def windowFilter (r : DateRange) (sessions : List WorkSession) : List WorkSession :=
  sessions.filter fun s =>
    decide (startOfDay r.start ≤ sessionStartMs s) &&
    decide (sessionStartMs s ≤ endOfDay r.stop)

/-- Previous-period filter: raw bounds, exactly as the source compares
`sessionDate >= previousPeriod.start && sessionDate <= previousPeriod.end`. -/
def prevFilter (p : DateRange) (sessions : List WorkSession) : List WorkSession :=
  sessions.filter fun s =>
    decide (p.start ≤ sessionStartMs s) && decide (sessionStartMs s ≤ p.stop)

/-- The current-period per-session mutation of `chartData`: weighted focus
update using the pre-update `hours`, then the rounded hours update. -/
def addCurrent (s : WorkSession) (p : ChartDataPoint) : ChartDataPoint :=
  let d := durationInHours s
  let newFocus :=
    if p.hours = 0 then s.focusLevel
    else (p.focusLevel * p.hours + s.focusLevel * d) / (p.hours + d)
  { p with focusLevel := newFocus, hours := round2 (p.hours + d) }

/-- The previous-period per-session mutation (`previousHours` /
`previousFocusLevel`), structurally identical to `addCurrent`. -/
def addPrevious (s : WorkSession) (p : ChartDataPoint) : ChartDataPoint :=
  let d := durationInHours s
  let newFocus :=
    if p.previousHours = 0 then s.focusLevel
    else (p.previousFocusLevel * p.previousHours + s.focusLevel * d) /
      (p.previousHours + d)
  { p with previousFocusLevel := newFocus, previousHours := round2 (p.previousHours + d) }

/-- Source `dates.find(d => d.date === key)` followed by the in-place mutation `f`:
update the first point carrying the given date, leave the rest unchanged (a
session matching no point is dropped silently). -/
def updateFirst (key : Int) (f : ChartDataPoint → ChartDataPoint) :
    List ChartDataPoint → List ChartDataPoint
  | [] => []
  | p :: rest => if p.date = key then f p :: rest else p :: updateFirst key f rest

/-- A `forEach` over sessions, each locating its bucket by `key` and mutating
it with `upd`. -/
def processSessions (key : WorkSession → Int)
    (upd : WorkSession → ChartDataPoint → ChartDataPoint)
    (sessions : List WorkSession) (pts : List ChartDataPoint) : List ChartDataPoint :=
  sessions.foldl (fun acc s => updateFirst (key s) (upd s) acc) pts

/-- The aggregator `chartData` of `AnalyticsPage.tsx` as a pure function of
the fetched sessions, the selected window, the reference instant "now" and
the comparison toggle. -/
def chartData (sessions : List WorkSession) (r : DateRange) (today : Int)
    (cmp : Bool) : List ChartDataPoint :=
  let pts := processSessions sessionDay addCurrent
    (windowFilter r sessions) (basePoints r today cmp)
  if cmp then
    let prev := getPreviousPeriodDates r.start r.stop
    processSessions (fun s => dayOf (sessionStartMs s + (r.stop - prev.stop)))
      addPrevious (prevFilter prev sessions) pts
  else pts

/-- Pure core of `handleCustomRangeSubmit`: the chosen calendar days (as
epoch-day numbers) become a window normalised to `00:00:00.000` /
`23:59:59.999`; a start after the end is rejected (`alert` + no range
installed), modelled as `none`. -/
def handleCustomRangeSubmit (startDay endDay : Int) : Option DateRange :=
  if startDay * dayMs > endDay * dayMs + 86399999 then none
  else some ⟨startDay * dayMs, endDay * dayMs + 86399999⟩

/-! ## Derived definitions used by the verification -/

/-- Number of iterations the `while` loop of `chartData` performs. -/
def numDaysN (start stop : Int) : Nat :=
  if start ≤ stop then (stop - start).toNat / 86400000 + 1 else 0

/-- Values that are integer multiples of `1/100` (the grid on which the
aggregator's rounded hours live). -/
def isCent (x : ℚ) : Prop := ∃ k : ℤ, x = (k : ℚ) / 100

/-- Sum of the rounded durations of a list of sessions. -/
def Dsum (l : List WorkSession) : ℚ := (l.map durationInHours).sum

/-- Sum of score-weighted rounded durations. -/
def QDsum (l : List WorkSession) : ℚ :=
  (l.map fun s => s.focusLevel * durationInHours s).sum

/-- The window sessions attributed to calendar day `d` (in list order). -/
def currContribs (ss : List WorkSession) (r : DateRange) (d : Int) : List WorkSession :=
  (windowFilter r ss).filter fun s => decide (sessionDay s = d)

/-- The previous-period sessions (raw-bounds filter) whose shifted start day
(`start + (window end - previous end)`) is `d`. -/
def prevContribs (ss : List WorkSession) (r : DateRange) (d : Int) : List WorkSession :=
  (prevFilter (getPreviousPeriodDates r.start r.stop) ss).filter fun s =>
    decide (dayOf (sessionStartMs s +
      (r.stop - (getPreviousPeriodDates r.start r.stop).stop)) = d)

/-- What the aggregator does to one skeleton point: fold its attributed
window sessions through the current-period update, then (when comparison is
on) its aligned previous-period sessions through the previous-period
update. -/
def bucketResult (ss : List WorkSession) (r : DateRange) (cmp : Bool)
    (p : ChartDataPoint) : ChartDataPoint :=
  let p1 := (currContribs ss r p.date).foldl (fun q s => addCurrent s q) p
  if cmp then (prevContribs ss r p.date).foldl (fun q s => addPrevious s q) p1
  else p1

/-- Modelled from the spec: the exact (unrounded) duration-weighted mean of
the quality scores of a list of records, durations taken in hours at full
precision. -/
def exactWeightedMean (l : List WorkSession) : ℚ :=
  (l.map fun s => s.focusLevel * (((s.endSeconds - s.startSeconds : ℤ) : ℚ) / 3600)).sum
    / (l.map fun s => ((s.endSeconds - s.startSeconds : ℤ) : ℚ) / 3600).sum

/-- Modelled from the spec (claim C6): the aggregator as the claim describes
it, with the previous-period filter bounds normalised to
start-of-day/end-of-day ("repeat steps 3-4 on that previous window").  Used
only for comparison against `chartData`, which filters the previous period
by the raw bounds. -/
def chartDataNormalizedPrev (sessions : List WorkSession) (r : DateRange)
    (today : Int) (cmp : Bool) : List ChartDataPoint :=
  let pts := processSessions sessionDay addCurrent
    (windowFilter r sessions) (basePoints r today cmp)
  if cmp then
    let prev := getPreviousPeriodDates r.start r.stop
    processSessions (fun s => dayOf (sessionStartMs s + (r.stop - prev.stop)))
      addPrevious
      (sessions.filter fun s =>
        decide (startOfDay prev.start ≤ sessionStartMs s) &&
        decide (sessionStartMs s ≤ endOfDay prev.stop))
      pts
  else pts

/-! ## Arithmetic toolkit -/

theorem dayOf_spec (t : Int) :
    86400000 * dayOf t + msOfDay t = t ∧ 0 ≤ msOfDay t ∧ msOfDay t < 86400000 :=
  ⟨Int.fdiv_add_fmod t 86400000, Int.fmod_nonneg' t (by norm_num [dayMs]),
    Int.fmod_lt_of_pos t (by norm_num [dayMs])⟩

theorem dayOf_unique {t k : Int} (h1 : 86400000 * k ≤ t) (h2 : t < 86400000 * (k + 1)) :
    dayOf t = k := by
  have h := dayOf_spec t
  omega

theorem dayOf_mono {t u : Int} (h : t ≤ u) : dayOf t ≤ dayOf u := by
  have h1 := dayOf_spec t
  have h2 := dayOf_spec u
  omega

theorem dayOf_add_mul (t k : Int) : dayOf (t + k * dayMs) = dayOf t + k := by
  have h := dayOf_spec t
  apply dayOf_unique <;> simp only [dayMs] at * <;> omega

theorem dayOf_mul (k : Int) : dayOf (k * dayMs) = k := by
  have h := dayOf_add_mul 0 k
  rw [zero_add] at h
  have h0 : dayOf 0 = 0 := by unfold dayOf; exact Int.zero_fdiv _
  omega

theorem dayOf_startOfDay (t : Int) : dayOf (startOfDay t) = dayOf t := by
  unfold startOfDay
  exact dayOf_mul (dayOf t)

theorem jsRound_intCast (k : ℤ) : jsRound (k : ℚ) = k := by
  unfold jsRound
  rw [Int.floor_int_add]
  norm_num

theorem jsRound_nonneg {x : ℚ} (h : 0 ≤ x) : 0 ≤ jsRound x := by
  unfold jsRound
  rw [Int.le_floor]
  push_cast
  linarith

theorem isCent_zero : isCent 0 := ⟨0, by norm_num⟩

theorem isCent_add {x y : ℚ} (hx : isCent x) (hy : isCent y) : isCent (x + y) := by
  obtain ⟨k, hk⟩ := hx
  obtain ⟨m, hm⟩ := hy
  exact ⟨k + m, by rw [hk, hm]; push_cast; ring⟩

theorem isCent_durationInHours (s : WorkSession) : isCent (durationInHours s) :=
  ⟨jsRound ((s.endSeconds - s.startSeconds : ℤ) / 36 : ℚ), rfl⟩

theorem round2_isCent {x : ℚ} (hx : isCent x) : round2 x = x := by
  obtain ⟨k, hk⟩ := hx
  subst hk
  unfold round2
  rw [show (k : ℚ) / 100 * 100 = (k : ℚ) by field_simp, jsRound_intCast]

theorem durationInHours_nonneg {s : WorkSession} (h : s.startSeconds ≤ s.endSeconds) :
    0 ≤ durationInHours s := by
  unfold durationInHours
  have : (0 : ℚ) ≤ ((s.endSeconds - s.startSeconds : ℤ) / 36 : ℚ) := by
    apply div_nonneg _ (by norm_num)
    push_cast
    linarith [show (s.startSeconds : ℚ) ≤ (s.endSeconds : ℚ) from by exact_mod_cast h]
  have := jsRound_nonneg this
  positivity

/-! ## Date-loop lemmas -/

theorem enumDates_go_succ (stop : Int) (n : Nat) (cur : Int) :
    enumDates.go stop (n+1) cur =
      if cur ≤ stop then cur :: enumDates.go stop n (cur + dayMs) else [] := rfl

theorem enumDates_go_zero (stop cur : Int) : enumDates.go stop 0 cur = [] := rfl

theorem enumDates_def (start stop : Int) :
    enumDates start stop = enumDates.go stop ((stop - start).toNat / 86400000 + 1) start := rfl

theorem enumDates_neg {start stop : Int} (h : stop < start) : enumDates start stop = [] := by
  rw [enumDates_def, enumDates_go_succ, if_neg (by omega)]

theorem enumDates_cons {start stop : Int} (h : start ≤ stop) :
    enumDates start stop = start :: enumDates (start + dayMs) stop := by
  rw [enumDates_def, enumDates_go_succ, if_pos h, enumDates_def]
  congr 1
  by_cases hc : start + dayMs ≤ stop
  · congr 1
    simp only [dayMs] at *
    omega
  · have h0 : (stop - start).toNat / 86400000 = 0 := by
      simp only [dayMs] at *
      omega
    rw [h0, enumDates_go_zero, enumDates_go_succ, if_neg hc]

theorem enumDates_eq (start stop : Int) :
    enumDates start stop =
      (List.range (numDaysN start stop)).map (fun k : ℕ => start + (k : Int) * dayMs) := by
  generalize hN : numDaysN start stop = N
  induction N generalizing start with
  | zero =>
    have h : stop < start := by
      by_contra hc
      push_neg at hc
      unfold numDaysN at hN
      rw [if_pos hc] at hN
      omega
    rw [enumDates_neg h]
    simp
  | succ k ih =>
    have h : start ≤ stop := by
      by_contra hc
      push_neg at hc
      unfold numDaysN at hN
      rw [if_neg (by omega)] at hN
      omega
    have hstep : numDaysN (start + dayMs) stop = k := by
      unfold numDaysN at hN ⊢
      rw [if_pos h] at hN
      by_cases hc : start + dayMs ≤ stop
      · rw [if_pos hc]
        simp only [dayMs] at *
        omega
      · rw [if_neg hc]
        simp only [dayMs] at *
        omega
    rw [enumDates_cons h, ih (start + dayMs) hstep, List.range_succ_eq_map]
    simp only [List.map_cons, List.map_map]
    congr 1
    · push_cast
      ring
    · apply List.map_congr_left
      intro a _
      simp only [Function.comp_apply]
      push_cast
      ring

theorem enumDates_days (start stop : Int) :
    (enumDates start stop).map dayOf
      = (List.range (numDaysN start stop)).map (fun k : ℕ => dayOf start + (k : Int)) := by
  rw [enumDates_eq, List.map_map]
  apply List.map_congr_left
  intro a _
  simp only [Function.comp_apply]
  exact dayOf_add_mul start a

theorem enumDates_days_nodup (start stop : Int) :
    ((enumDates start stop).map dayOf).Nodup := by
  rw [enumDates_days]
  refine List.Nodup.map ?_ (List.nodup_range (numDaysN start stop))
  intro a b hab
  simp only at hab
  omega

theorem mem_enumDates_days {start stop d : Int} :
    d ∈ (enumDates start stop).map dayOf ↔
      dayOf start ≤ d ∧ d < dayOf start + numDaysN start stop := by
  rw [enumDates_days]
  simp only [List.mem_map, List.mem_range]
  constructor
  · rintro ⟨k, hk, rfl⟩
    omega
  · rintro ⟨h1, h2⟩
    exact ⟨(d - dayOf start).toNat, by omega, by omega⟩

/-! ## Bucket-update machinery -/

theorem updateFirst_eq_map {pts : List ChartDataPoint} (k : Int)
    (f : ChartDataPoint → ChartDataPoint)
    (hnd : (pts.map (fun p => p.date)).Nodup) :
    updateFirst k f pts = pts.map (fun p => if p.date = k then f p else p) := by
  induction pts with
  | nil => rfl
  | cons p rest ih =>
    simp only [List.map_cons, List.nodup_cons] at hnd
    obtain ⟨hp, hrest⟩ := hnd
    unfold updateFirst
    by_cases h : p.date = k
    · rw [if_pos h, List.map_cons, if_pos h]
      congr 1
      have hrw : ∀ q ∈ rest, (if q.date = k then f q else q) = id q := by
        intro q hq
        rw [if_neg, id_eq]
        intro hqk
        apply hp
        rw [h, ← hqk]
        exact List.mem_map_of_mem _ hq
      rw [List.map_congr_left hrw, List.map_id]
    · rw [if_neg h, List.map_cons, if_neg h, ih hrest]

theorem updateFirst_map_date {k : Int} {f : ChartDataPoint → ChartDataPoint}
    (hf : ∀ p, (f p).date = p.date) (pts : List ChartDataPoint) :
    (updateFirst k f pts).map (fun p => p.date) = pts.map (fun p => p.date) := by
  induction pts with
  | nil => rfl
  | cons p rest ih =>
    unfold updateFirst
    by_cases h : p.date = k
    · simp [if_pos h, hf]
    · simp only [if_neg h, List.map_cons, ih]

theorem processSessions_nil (key : WorkSession → Int)
    (upd : WorkSession → ChartDataPoint → ChartDataPoint) (ss : List WorkSession) :
    processSessions key upd ss [] = [] := by
  induction ss with
  | nil => rfl
  | cons s ss ih =>
    simp only [processSessions, List.foldl_cons]
    show processSessions key upd ss (updateFirst (key s) (upd s) []) = []
    rw [show updateFirst (key s) (upd s) [] = [] from rfl]
    exact ih

theorem processSessions_eq_map (key : WorkSession → Int)
    (upd : WorkSession → ChartDataPoint → ChartDataPoint)
    (hupd : ∀ s p, (upd s p).date = p.date)
    (ss : List WorkSession) (pts : List ChartDataPoint)
    (hnd : (pts.map (fun p => p.date)).Nodup) :
    processSessions key upd ss pts =
      pts.map fun p =>
        (ss.filter fun s => decide (key s = p.date)).foldl (fun q s => upd s q) p := by
  induction ss generalizing pts with
  | nil =>
    simp [processSessions]
  | cons s ss ih =>
    have h1 : processSessions key upd (s :: ss) pts
        = processSessions key upd ss (updateFirst (key s) (upd s) pts) := by
      simp [processSessions]
    have hg : ∀ p : ChartDataPoint, (if p.date = key s then upd s p else p).date = p.date := by
      intro p
      by_cases h : p.date = key s
      · simp [if_pos h, hupd]
      · simp [if_neg h]
    have hnd2 : ((pts.map (fun p => if p.date = key s then upd s p else p)).map
        (fun p => p.date)).Nodup := by
      rw [List.map_map]
      have : ((fun p : ChartDataPoint => p.date) ∘
          (fun p => if p.date = key s then upd s p else p)) = fun p => p.date := by
        funext p
        simp only [Function.comp_apply, hg]
      rw [this]
      exact hnd
    rw [h1, updateFirst_eq_map (key s) (upd s) hnd, ih _ hnd2, List.map_map]
    apply List.map_congr_left
    intro p hp
    simp only [Function.comp_apply, hg, List.filter_cons]
    by_cases h : key s = p.date
    · rw [if_pos h.symm, if_pos (by simpa using h), List.foldl_cons]
    · rw [if_neg (fun hh => h hh.symm), if_neg (by simpa using h)]

/-! ## Closed form of the aggregator -/

theorem addCurrent_date (s : WorkSession) (p : ChartDataPoint) :
    (addCurrent s p).date = p.date := rfl

theorem addPrevious_date (s : WorkSession) (p : ChartDataPoint) :
    (addPrevious s p).date = p.date := rfl

theorem foldCurrent_skeleton (l : List WorkSession) (p : ChartDataPoint) :
    (l.foldl (fun q s => addCurrent s q) p).date = p.date ∧
    (l.foldl (fun q s => addCurrent s q) p).isToday = p.isToday ∧
    (l.foldl (fun q s => addCurrent s q) p).comparisonDate = p.comparisonDate ∧
    (l.foldl (fun q s => addCurrent s q) p).previousHours = p.previousHours ∧
    (l.foldl (fun q s => addCurrent s q) p).previousFocusLevel = p.previousFocusLevel := by
  induction l generalizing p with
  | nil => exact ⟨rfl, rfl, rfl, rfl, rfl⟩
  | cons s l ih =>
    simp only [List.foldl_cons]
    exact ih (addCurrent s p)

theorem foldPrevious_skeleton (l : List WorkSession) (p : ChartDataPoint) :
    (l.foldl (fun q s => addPrevious s q) p).date = p.date ∧
    (l.foldl (fun q s => addPrevious s q) p).isToday = p.isToday ∧
    (l.foldl (fun q s => addPrevious s q) p).comparisonDate = p.comparisonDate ∧
    (l.foldl (fun q s => addPrevious s q) p).hours = p.hours ∧
    (l.foldl (fun q s => addPrevious s q) p).focusLevel = p.focusLevel := by
  induction l generalizing p with
  | nil => exact ⟨rfl, rfl, rfl, rfl, rfl⟩
  | cons s l ih =>
    simp only [List.foldl_cons]
    exact ih (addPrevious s p)

theorem basePoints_dates (r : DateRange) (today : Int) (cmp : Bool) :
    (basePoints r today cmp).map (fun p => p.date) = (enumDates r.start r.stop).map dayOf := by
  unfold basePoints
  rw [List.map_map]
  rfl

theorem basePoints_dates_nodup (r : DateRange) (today : Int) (cmp : Bool) :
    ((basePoints r today cmp).map (fun p => p.date)).Nodup := by
  rw [basePoints_dates]
  exact enumDates_days_nodup r.start r.stop

theorem chartData_closed (ss : List WorkSession) (r : DateRange) (today : Int) (cmp : Bool) :
    chartData ss r today cmp = (basePoints r today cmp).map (bucketResult ss r cmp) := by
  unfold chartData bucketResult
  cases cmp with
  | false =>
    simp only [Bool.false_eq_true, if_false]
    exact processSessions_eq_map sessionDay addCurrent addCurrent_date _ _
      (basePoints_dates_nodup r today false)
  | true =>
    simp only [if_true]
    rw [processSessions_eq_map sessionDay addCurrent addCurrent_date _ _
      (basePoints_dates_nodup r today true)]
    have hnd2 : (((basePoints r today true).map fun p =>
        (windowFilter r ss |>.filter fun s => decide (sessionDay s = p.date)).foldl
          (fun q s => addCurrent s q) p).map (fun p => p.date)).Nodup := by
      rw [List.map_map]
      have heq : ((fun p : ChartDataPoint => p.date) ∘ fun p =>
          (windowFilter r ss |>.filter fun s => decide (sessionDay s = p.date)).foldl
            (fun q s => addCurrent s q) p) = fun p : ChartDataPoint => p.date := by
        funext p
        exact (foldCurrent_skeleton _ p).1
      rw [heq]
      exact basePoints_dates_nodup r today true
    rw [processSessions_eq_map _ addPrevious addPrevious_date _ _ hnd2, List.map_map]
    apply List.map_congr_left
    intro p hp
    simp only [Function.comp_apply]
    rw [(foldCurrent_skeleton _ p).1]
    rfl

/-! ## Accumulation lemmas -/

theorem isCent_Dsum (l : List WorkSession) : isCent (Dsum l) := by
  induction l with
  | nil => exact isCent_zero
  | cons s l ih =>
    have : Dsum (s :: l) = durationInHours s + Dsum l := by simp [Dsum]
    rw [this]
    exact isCent_add (isCent_durationInHours s) ih

theorem Dsum_nonneg {l : List WorkSession} (h : ∀ s ∈ l, 0 ≤ durationInHours s) :
    0 ≤ Dsum l := by
  induction l with
  | nil => simp [Dsum]
  | cons s l ih =>
    have : Dsum (s :: l) = durationInHours s + Dsum l := by simp [Dsum]
    rw [this]
    have h1 := h s (List.mem_cons_self s l)
    have h2 := ih (fun s' hs' => h s' (List.mem_cons_of_mem s hs'))
    linarith

theorem addCurrent_hours_of_isCent {p : ChartDataPoint} (s : WorkSession)
    (hc : isCent p.hours) :
    (addCurrent s p).hours = p.hours + durationInHours s :=
  round2_isCent (isCent_add hc (isCent_durationInHours s))

theorem foldCurrent_hours (l : List WorkSession) (p : ChartDataPoint)
    (hc : isCent p.hours) :
    (l.foldl (fun q s => addCurrent s q) p).hours = p.hours + Dsum l := by
  induction l generalizing p with
  | nil => simp [Dsum]
  | cons s l ih =>
    simp only [List.foldl_cons]
    have hc' : isCent (addCurrent s p).hours := by
      rw [addCurrent_hours_of_isCent s hc]
      exact isCent_add hc (isCent_durationInHours s)
    rw [ih (addCurrent s p) hc', addCurrent_hours_of_isCent s hc]
    have : Dsum (s :: l) = durationInHours s + Dsum l := by simp [Dsum]
    rw [this]
    ring

theorem foldCurrent_product (l : List WorkSession)
    (hd : ∀ s ∈ l, 0 ≤ durationInHours s) (p : ChartDataPoint)
    (hc : isCent p.hours) (hp : 0 ≤ p.hours) :
    (l.foldl (fun q s => addCurrent s q) p).focusLevel *
      (l.foldl (fun q s => addCurrent s q) p).hours
      = p.focusLevel * p.hours + QDsum l := by
  induction l generalizing p with
  | nil => simp [QDsum]
  | cons s l ih =>
    simp only [List.foldl_cons]
    have hd0 : 0 ≤ durationInHours s := hd s (List.mem_cons_self s l)
    have hdl : ∀ s' ∈ l, 0 ≤ durationInHours s' :=
      fun s' hs' => hd s' (List.mem_cons_of_mem s hs')
    have hval : (addCurrent s p).hours = p.hours + durationInHours s :=
      addCurrent_hours_of_isCent s hc
    have hc' : isCent (addCurrent s p).hours := by
      rw [hval]
      exact isCent_add hc (isCent_durationInHours s)
    have hp' : 0 ≤ (addCurrent s p).hours := by
      rw [hval]
      linarith
    rw [ih hdl (addCurrent s p) hc' hp']
    have key : (addCurrent s p).focusLevel * (addCurrent s p).hours
        = p.focusLevel * p.hours + s.focusLevel * durationInHours s := by
      rw [hval]
      have hfl : (addCurrent s p).focusLevel =
          if p.hours = 0 then s.focusLevel
          else (p.focusLevel * p.hours + s.focusLevel * durationInHours s) /
            (p.hours + durationInHours s) := rfl
      rw [hfl]
      by_cases h0 : p.hours = 0
      · rw [if_pos h0, h0]
        ring
      · rw [if_neg h0]
        have hpd : p.hours + durationInHours s ≠ 0 := by
          have : 0 < p.hours := lt_of_le_of_ne hp (Ne.symm h0)
          linarith
        field_simp
    rw [key]
    have : QDsum (s :: l) = s.focusLevel * durationInHours s + QDsum l := by simp [QDsum]
    rw [this]
    ring

theorem foldCurrent_focus (l : List WorkSession)
    (hd : ∀ s ∈ l, 0 ≤ durationInHours s) (p : ChartDataPoint)
    (h0 : p.hours = 0) (hD : Dsum l ≠ 0) :
    (l.foldl (fun q s => addCurrent s q) p).focusLevel = QDsum l / Dsum l := by
  have h1 := foldCurrent_hours l p (by rw [h0]; exact isCent_zero)
  have h2 := foldCurrent_product l hd p (by rw [h0]; exact isCent_zero) (by rw [h0])
  rw [h0, zero_add] at h1
  rw [h0, mul_zero, zero_add, h1] at h2
  rw [eq_div_iff hD]
  exact h2

theorem addPrevious_hours_of_isCent {p : ChartDataPoint} (s : WorkSession)
    (hc : isCent p.previousHours) :
    (addPrevious s p).previousHours = p.previousHours + durationInHours s :=
  round2_isCent (isCent_add hc (isCent_durationInHours s))

theorem foldPrevious_hours (l : List WorkSession) (p : ChartDataPoint)
    (hc : isCent p.previousHours) :
    (l.foldl (fun q s => addPrevious s q) p).previousHours = p.previousHours + Dsum l := by
  induction l generalizing p with
  | nil => simp [Dsum]
  | cons s l ih =>
    simp only [List.foldl_cons]
    have hc' : isCent (addPrevious s p).previousHours := by
      rw [addPrevious_hours_of_isCent s hc]
      exact isCent_add hc (isCent_durationInHours s)
    rw [ih (addPrevious s p) hc', addPrevious_hours_of_isCent s hc]
    have : Dsum (s :: l) = durationInHours s + Dsum l := by simp [Dsum]
    rw [this]
    ring

theorem foldPrevious_product (l : List WorkSession)
    (hd : ∀ s ∈ l, 0 ≤ durationInHours s) (p : ChartDataPoint)
    (hc : isCent p.previousHours) (hp : 0 ≤ p.previousHours) :
    (l.foldl (fun q s => addPrevious s q) p).previousFocusLevel *
      (l.foldl (fun q s => addPrevious s q) p).previousHours
      = p.previousFocusLevel * p.previousHours + QDsum l := by
  induction l generalizing p with
  | nil => simp [QDsum]
  | cons s l ih =>
    simp only [List.foldl_cons]
    have hd0 : 0 ≤ durationInHours s := hd s (List.mem_cons_self s l)
    have hdl : ∀ s' ∈ l, 0 ≤ durationInHours s' :=
      fun s' hs' => hd s' (List.mem_cons_of_mem s hs')
    have hval : (addPrevious s p).previousHours = p.previousHours + durationInHours s :=
      addPrevious_hours_of_isCent s hc
    have hc' : isCent (addPrevious s p).previousHours := by
      rw [hval]
      exact isCent_add hc (isCent_durationInHours s)
    have hp' : 0 ≤ (addPrevious s p).previousHours := by
      rw [hval]
      linarith
    rw [ih hdl (addPrevious s p) hc' hp']
    have key : (addPrevious s p).previousFocusLevel * (addPrevious s p).previousHours
        = p.previousFocusLevel * p.previousHours + s.focusLevel * durationInHours s := by
      rw [hval]
      have hfl : (addPrevious s p).previousFocusLevel =
          if p.previousHours = 0 then s.focusLevel
          else (p.previousFocusLevel * p.previousHours +
            s.focusLevel * durationInHours s) /
            (p.previousHours + durationInHours s) := rfl
      rw [hfl]
      by_cases h0 : p.previousHours = 0
      · rw [if_pos h0, h0]
        ring
      · rw [if_neg h0]
        have hpd : p.previousHours + durationInHours s ≠ 0 := by
          have : 0 < p.previousHours := lt_of_le_of_ne hp (Ne.symm h0)
          linarith
        field_simp
    rw [key]
    have : QDsum (s :: l) = s.focusLevel * durationInHours s + QDsum l := by simp [QDsum]
    rw [this]
    ring

theorem foldPrevious_focus (l : List WorkSession)
    (hd : ∀ s ∈ l, 0 ≤ durationInHours s) (p : ChartDataPoint)
    (h0 : p.previousHours = 0) (hD : Dsum l ≠ 0) :
    (l.foldl (fun q s => addPrevious s q) p).previousFocusLevel = QDsum l / Dsum l := by
  have h1 := foldPrevious_hours l p (by rw [h0]; exact isCent_zero)
  have h2 := foldPrevious_product l hd p (by rw [h0]; exact isCent_zero) (by rw [h0])
  rw [h0, zero_add] at h1
  rw [h0, mul_zero, zero_add, h1] at h2
  rw [eq_div_iff hD]
  exact h2

/-! ## Sum bookkeeping -/

theorem sum_map_add' {α : Type} (l : List α) (g h : α → ℚ) :
    (l.map fun a => g a + h a).sum = (l.map g).sum + (l.map h).sum := by
  induction l with
  | nil => simp
  | cons a l ih =>
    simp only [List.map_cons, List.sum_cons, ih]
    ring

theorem sum_map_ite_date (pts : List ChartDataPoint)
    (hnd : (pts.map (fun p => p.date)).Nodup) (c : Int) (v : ℚ) :
    (pts.map fun p => if p.date = c then v else 0).sum
      = if c ∈ pts.map (fun p => p.date) then v else 0 := by
  induction pts with
  | nil => simp
  | cons p rest ih =>
    simp only [List.map_cons, List.nodup_cons] at hnd
    obtain ⟨hp, hrest⟩ := hnd
    simp only [List.map_cons, List.sum_cons, List.mem_cons]
    by_cases h : p.date = c
    · rw [if_pos h, if_pos (Or.inl h.symm)]
      have hz : ∀ q ∈ rest, (if q.date = c then v else 0) = (fun _ => (0:ℚ)) q := by
        intro q hq
        refine if_neg fun hqc => hp ?_
        rw [h, ← hqc]
        exact List.mem_map_of_mem _ hq
      rw [List.map_congr_left hz, List.map_const']
      simp
    · rw [if_neg h, ih hrest, zero_add]
      have hiff : (c = p.date ∨ c ∈ rest.map fun p => p.date)
          ↔ c ∈ rest.map fun p => p.date := by
        constructor
        · rintro (hh | hh)
          · exact absurd hh.symm h
          · exact hh
        · exact Or.inr
      rw [if_congr hiff rfl rfl]

theorem sum_over_buckets (pts : List ChartDataPoint)
    (hnd : (pts.map (fun p => p.date)).Nodup) (ss : List WorkSession)
    (key : WorkSession → Int) (f : WorkSession → ℚ) :
    (pts.map fun p => ((ss.filter fun s => decide (key s = p.date)).map f).sum).sum
      = ((ss.filter fun s => decide (key s ∈ pts.map fun p => p.date)).map f).sum := by
  induction ss with
  | nil => simp
  | cons s ss ih =>
    have hL : ∀ p ∈ pts,
        (((s :: ss).filter fun s' => decide (key s' = p.date)).map f).sum
          = (if p.date = key s then f s else 0)
            + ((ss.filter fun s' => decide (key s' = p.date)).map f).sum := by
      intro p _
      rw [List.filter_cons]
      by_cases h : key s = p.date
      · rw [if_pos (by simpa using h), List.map_cons, List.sum_cons, if_pos h.symm]
      · rw [if_neg (by simpa using h), if_neg (fun hh => h hh.symm), zero_add]
    rw [List.map_congr_left hL, sum_map_add', sum_map_ite_date pts hnd (key s) (f s), ih]
    rw [List.filter_cons]
    by_cases h : key s ∈ pts.map fun p => p.date
    · rw [if_pos h, if_pos (by simpa using h), List.map_cons, List.sum_cons]
    · rw [if_neg h, if_neg (by simpa using h), zero_add]

/-! ## Day coverage -/

theorem numDaysN_of_msOfDay {r : DateRange} (h1 : r.start ≤ r.stop)
    (h2 : msOfDay r.start ≤ msOfDay r.stop) :
    (numDaysN r.start r.stop : Int) = dayOf r.stop - dayOf r.start + 1 := by
  have hs := dayOf_spec r.start
  have he := dayOf_spec r.stop
  unfold numDaysN
  rw [if_pos h1]
  push_cast
  omega

/-- Every session passing the day-normalised window filter is attributed to a
day that has a bucket, provided the window end's time-of-day is not earlier
than the window start's. -/
theorem windowFilter_day_covered {r : DateRange} (h1 : r.start ≤ r.stop)
    (h2 : msOfDay r.start ≤ msOfDay r.stop) {ss : List WorkSession} {s : WorkSession}
    (hs : s ∈ windowFilter r ss) :
    sessionDay s ∈ (enumDates r.start r.stop).map dayOf := by
  unfold windowFilter at hs
  rw [List.mem_filter] at hs
  obtain ⟨-, hbounds⟩ := hs
  simp only [Bool.and_eq_true, decide_eq_true_eq] at hbounds
  obtain ⟨hlo, hhi⟩ := hbounds
  rw [mem_enumDates_days]
  have hcnt := numDaysN_of_msOfDay h1 h2
  have hmono1 : dayOf (startOfDay r.start) ≤ sessionDay s := dayOf_mono hlo
  have hmono2 : sessionDay s ≤ dayOf (endOfDay r.stop) := dayOf_mono hhi
  rw [dayOf_startOfDay] at hmono1
  have hend : dayOf (endOfDay r.stop) = dayOf r.stop := by
    unfold endOfDay
    refine dayOf_unique ?_ ?_ <;> have := dayOf_spec r.stop <;>
      simp only [dayMs] at * <;> omega
  rw [hend] at hmono2
  omega

/-! ## Claim theorems: overlap checker -/

/-- C1: For well-formed time ranges (start < end) the overlap checker reports
overlap exactly under the half-open test `s1 < e2 AND s2 < e1`: the
collection scan returns true iff some member overlaps the candidate under
that test and false on the empty collection; a candidate abutting an
existing range (ending at its start or starting at its end) is not an
overlap, while sharing the start instant, being contained, or being
identical is. -/
theorem overlap_halfOpen_correct (existing : List SessionDoc) (c : TimeRange) :
    (sessionsOverlap existing c = true ↔
      ∃ s ∈ existing, c.startTime < s.endTime ∧ s.startTime < c.endTime) ∧
    sessionsOverlap [] c = false ∧
    (∀ r : TimeRange, c.startTime < c.endTime → r.startTime < r.endTime →
      ((c.endTime = r.startTime → hasOverlap c r = false) ∧
       (c.startTime = r.endTime → hasOverlap c r = false) ∧
       (c.startTime = r.startTime → hasOverlap c r = true) ∧
       (r.startTime ≤ c.startTime → c.endTime ≤ r.endTime → hasOverlap c r = true) ∧
       (c = r → hasOverlap c r = true))) := by
  refine ⟨?_, rfl, ?_⟩
  · simp [sessionsOverlap, hasOverlap, List.any_eq_true]
  · intro r hc hr
    refine ⟨?_, ?_, ?_, ?_, ?_⟩
    · intro h
      simp only [hasOverlap, Bool.and_eq_false_iff, decide_eq_false_iff_not, not_lt]
      omega
    · intro h
      simp only [hasOverlap, Bool.and_eq_false_iff, decide_eq_false_iff_not, not_lt]
      omega
    · intro h
      simp only [hasOverlap, Bool.and_eq_true, decide_eq_true_eq]
      omega
    · intro h1 h2
      simp only [hasOverlap, Bool.and_eq_true, decide_eq_true_eq]
      omega
    · intro h
      subst h
      simp only [hasOverlap, Bool.and_eq_true, decide_eq_true_eq]
      omega

theorem overlap_halfOpen_correct_witness :
    hasOverlap ⟨0, 10⟩ ⟨10, 20⟩ = false ∧ hasOverlap ⟨0, 10⟩ ⟨0, 20⟩ = true :=
  ⟨((overlap_halfOpen_correct [] ⟨0, 10⟩).2.2 ⟨10, 20⟩ (by decide) (by decide)).1 rfl,
   ((overlap_halfOpen_correct [] ⟨0, 10⟩).2.2 ⟨0, 20⟩ (by decide) (by decide)).2.2.1 rfl⟩

/-- C10: For every pair of well-formed ranges the three-clause overlap test
of the older util computes the same function as the single half-open
comparison of the current util. -/
theorem overlapPredicates_equivalent (c r : TimeRange)
    (hc : c.startTime < c.endTime) (hr : r.startTime < r.endTime) :
    hasOverlapV1 c r = hasOverlap c r := by
  rw [Bool.eq_iff_iff]
  simp only [hasOverlapV1, hasOverlap, Bool.or_eq_true, Bool.and_eq_true,
    decide_eq_true_eq]
  omega

theorem overlapPredicates_equivalent_witness :
    ((0:Int) < 10 ∧ (5:Int) < 20) ∧
      hasOverlapV1 ⟨0, 10⟩ ⟨5, 20⟩ = hasOverlap ⟨0, 10⟩ ⟨5, 20⟩ :=
  ⟨by decide, overlapPredicates_equivalent ⟨0, 10⟩ ⟨5, 20⟩ (by decide) (by decide)⟩

/-- C8: When an exclude id is supplied, the record being edited is removed
from the existing set before the pairwise test runs, so the result is
independent of that record's own time range: two document lists agreeing
everywhere except possibly in the ranges of documents carrying the excluded
id give the same answer, and no surviving document carries the excluded
id. -/
theorem excludeSession_independent (d1 d2 : List SessionDoc) (ex : String)
    (st et : Int)
    (h : List.Forall₂ (fun a b => a.id = b.id ∧ (a.id ≠ ex → a = b)) d1 d2) :
    checkForSessionOverlap d1 st et (some ex) = checkForSessionOverlap d2 st et (some ex) ∧
    ∀ d ∈ filterExclude d1 (some ex), d.id ≠ ex := by
  have hfe : filterExclude d1 (some ex) = filterExclude d2 (some ex) := by
    induction h with
    | nil => rfl
    | @cons a b l1 l2 hab htail ih =>
      obtain ⟨hid, heq⟩ := hab
      unfold filterExclude
      simp only [List.filter_cons]
      by_cases hx : a.id = ex
      · rw [if_neg (by simp [hx]), if_neg (by simp [← hid, hx])]
        exact ih
      · rw [if_pos (by simp [hx]), if_pos (by simp [← hid, hx])]
        rw [heq hx]
        congr 1
  constructor
  · unfold checkForSessionOverlap
    rw [hfe]
  · intro d hd
    unfold filterExclude at hd
    rw [List.mem_filter] at hd
    simpa using hd.2

theorem excludeSession_independent_witness :
    checkForSessionOverlap [⟨"e", 0, 10⟩] 0 10 (some "e")
      = checkForSessionOverlap [⟨"e", 100, 200⟩] 0 10 (some "e") :=
  (excludeSession_independent [⟨"e", 0, 10⟩] [⟨"e", 100, 200⟩] "e" 0 10
    (List.Forall₂.cons ⟨rfl, fun hne => absurd rfl hne⟩ List.Forall₂.nil)).1

/-! ## Claim theorems: aggregator -/

/-- C4 counterexample: for the inverted window (start = day 1, end = instant
0) the aggregator does not fail with any InvalidWindow condition — it
returns exactly the empty bucket sequence. -/
theorem invalidWindow_counterexample :
    chartData [] ⟨86400000, 0⟩ 0 false = [] := by
  rfl

/-- C4 amended: the InvalidWindow rejection lives in the caller: the
custom-range submit handler synchronously rejects a start day after the end
day and installs no window, and every window it does install satisfies
`start ≤ stop`; the aggregator itself, given a window with
`start > stop`, returns the empty bucket sequence (not an error). -/
theorem invalidWindow_rejected_by_caller (sd ed : Int) (ss : List WorkSession)
    (r : DateRange) (today : Int) (cmp : Bool) (hr : r.stop < r.start) :
    (sd > ed → handleCustomRangeSubmit sd ed = none) ∧
    (∀ r' : DateRange, handleCustomRangeSubmit sd ed = some r' → r'.start ≤ r'.stop) ∧
    chartData ss r today cmp = [] := by
  refine ⟨?_, ?_, ?_⟩
  · intro h
    unfold handleCustomRangeSubmit
    rw [if_pos (by simp only [dayMs]; omega)]
  · intro r' h
    unfold handleCustomRangeSubmit at h
    by_cases hc : sd * dayMs > ed * dayMs + 86399999
    · rw [if_pos hc] at h
      exact absurd h (by simp)
    · rw [if_neg hc] at h
      injection h with h
      subst h
      show sd * dayMs ≤ ed * dayMs + 86399999
      simp only [dayMs] at hc ⊢
      omega
  · have hbp : basePoints r today cmp = [] := by
      unfold basePoints
      rw [enumDates_neg hr]
      rfl
    rw [chartData_closed, hbp]
    rfl

theorem invalidWindow_rejected_by_caller_witness :
    handleCustomRangeSubmit 5 3 = none ∧ chartData [] ⟨86400000, 0⟩ 99 true = [] :=
  ⟨(invalidWindow_rejected_by_caller 5 3 [] ⟨86400000, 0⟩ 99 true (by decide)).1
      (by decide),
   (invalidWindow_rejected_by_caller 5 3 [] ⟨86400000, 0⟩ 99 true (by decide)).2.2⟩

/-- C3 counterexample: window from 23:00 of day 0 to 01:00 of day 1, one
session starting day 1 at 00:30 lasting one hour.  The session passes the
normalised window filter (and has duration 1 h, rounded or exact), yet the
aggregator emits a single bucket whose total is 0: the bucket sum does not
equal the sum of durations of in-window records. -/
theorem aggregator_sum_counterexample :
    ((chartData [⟨88200, 91800, 5⟩] ⟨82800000, 90000000⟩ 0 false).map
        (fun p => p.hours)).sum = 0 ∧
    windowFilter ⟨82800000, 90000000⟩ [⟨88200, 91800, 5⟩] = [⟨88200, 91800, 5⟩] ∧
    durationInHours ⟨88200, 91800, 5⟩ = 1 := by
  refine ⟨?_, by rfl, ?_⟩
  · norm_num [chartData, processSessions, basePoints, enumDates, enumDates.go, dayMs,
      dayOf, windowFilter, startOfDay, endOfDay, sessionStartMs, sessionDay,
      updateFirst, addCurrent, durationInHours, round2, jsRound, Int.fdiv]
  · norm_num [durationInHours, jsRound]

/-- C3 amended: the sum of `hours` over all buckets equals the sum of the
*rounded* durations (`Math.round(seconds/36)/100`) of exactly the records
whose start instant lies in the day-normalised window, provided the window is
valid and its end's time-of-day is not earlier than its start's (true for
every window the UI can install); without that proviso, records of trailing
days that get no bucket are dropped from the total. -/
theorem aggregator_totalDuration_sum (ss : List WorkSession) (r : DateRange)
    (today : Int) (cmp : Bool) (h1 : r.start ≤ r.stop)
    (h2 : msOfDay r.start ≤ msOfDay r.stop) :
    ((chartData ss r today cmp).map (fun p => p.hours)).sum
      = ((windowFilter r ss).map durationInHours).sum := by
  rw [chartData_closed, List.map_map]
  have hpt : ∀ p ∈ basePoints r today cmp,
      ((fun p : ChartDataPoint => p.hours) ∘ bucketResult ss r cmp) p
        = (((windowFilter r ss).filter fun s =>
            decide (sessionDay s = p.date)).map durationInHours).sum := by
    intro p hp
    have hbase : p.hours = 0 := by
      unfold basePoints at hp
      rw [List.mem_map] at hp
      obtain ⟨cur, -, rfl⟩ := hp
      rfl
    simp only [Function.comp_apply]
    unfold bucketResult
    have hcur : ((currContribs ss r p.date).foldl (fun q s => addCurrent s q) p).hours
        = (((windowFilter r ss).filter fun s =>
            decide (sessionDay s = p.date)).map durationInHours).sum := by
      rw [foldCurrent_hours _ p (by rw [hbase]; exact isCent_zero), hbase, zero_add]
      rfl
    cases cmp with
    | false => exact hcur
    | true =>
      simp only [if_true]
      rw [(foldPrevious_skeleton _ _).2.2.2.1]
      exact hcur
  rw [List.map_congr_left hpt,
    sum_over_buckets (basePoints r today cmp) (basePoints_dates_nodup r today cmp)
      (windowFilter r ss) sessionDay durationInHours]
  have hall : ((windowFilter r ss).filter fun s =>
      decide (sessionDay s ∈ (basePoints r today cmp).map fun p => p.date))
      = windowFilter r ss := by
    rw [List.filter_eq_self]
    intro s hs
    simp only [decide_eq_true_eq]
    rw [basePoints_dates]
    exact windowFilter_day_covered h1 h2 hs
  rw [hall]

theorem aggregator_totalDuration_sum_witness :
    ((chartData [⟨3600, 7200, 5⟩] ⟨0, 86399999⟩ 0 false).map (fun p => p.hours)).sum
      = ((windowFilter ⟨0, 86399999⟩ [⟨3600, 7200, 5⟩]).map durationInHours).sum :=
  aggregator_totalDuration_sum [⟨3600, 7200, 5⟩] ⟨0, 86399999⟩ 0 false
    (by decide) (by decide)

/-! ## Per-bucket characterisation -/

theorem basePoints_mem_fields {r : DateRange} {today : Int} {cmp : Bool}
    {p : ChartDataPoint} (hp : p ∈ basePoints r today cmp) :
    p.hours = 0 ∧ p.focusLevel = 0 ∧ p.previousHours = 0 ∧ p.previousFocusLevel = 0 := by
  unfold basePoints at hp
  rw [List.mem_map] at hp
  obtain ⟨cur, -, rfl⟩ := hp
  exact ⟨rfl, rfl, rfl, rfl⟩

theorem bucketResult_date (ss : List WorkSession) (r : DateRange) (cmp : Bool)
    (p : ChartDataPoint) : (bucketResult ss r cmp p).date = p.date := by
  unfold bucketResult
  cases cmp with
  | false => exact (foldCurrent_skeleton _ _).1
  | true =>
    simp only [if_true]
    rw [(foldPrevious_skeleton _ _).1]
    exact (foldCurrent_skeleton _ _).1

theorem bucketResult_isToday (ss : List WorkSession) (r : DateRange) (cmp : Bool)
    (p : ChartDataPoint) : (bucketResult ss r cmp p).isToday = p.isToday := by
  unfold bucketResult
  cases cmp with
  | false => exact (foldCurrent_skeleton _ _).2.1
  | true =>
    simp only [if_true]
    rw [(foldPrevious_skeleton _ _).2.1]
    exact (foldCurrent_skeleton _ _).2.1

theorem bucketResult_comparisonDate (ss : List WorkSession) (r : DateRange) (cmp : Bool)
    (p : ChartDataPoint) : (bucketResult ss r cmp p).comparisonDate = p.comparisonDate := by
  unfold bucketResult
  cases cmp with
  | false => exact (foldCurrent_skeleton _ _).2.2.1
  | true =>
    simp only [if_true]
    rw [(foldPrevious_skeleton _ _).2.2.1]
    exact (foldCurrent_skeleton _ _).2.2.1

theorem bucketResult_hours {p : ChartDataPoint} (ss : List WorkSession) (r : DateRange)
    (cmp : Bool) (hc : isCent p.hours) :
    (bucketResult ss r cmp p).hours = p.hours + Dsum (currContribs ss r p.date) := by
  unfold bucketResult
  cases cmp with
  | false => exact foldCurrent_hours _ p hc
  | true =>
    simp only [if_true]
    rw [(foldPrevious_skeleton _ _).2.2.2.1]
    exact foldCurrent_hours _ p hc

theorem bucketResult_focus {p : ChartDataPoint} (ss : List WorkSession) (r : DateRange)
    (cmp : Bool) (hd : ∀ s ∈ currContribs ss r p.date, 0 ≤ durationInHours s)
    (h0 : p.hours = 0) (hD : Dsum (currContribs ss r p.date) ≠ 0) :
    (bucketResult ss r cmp p).focusLevel
      = QDsum (currContribs ss r p.date) / Dsum (currContribs ss r p.date) := by
  unfold bucketResult
  cases cmp with
  | false => exact foldCurrent_focus _ hd p h0 hD
  | true =>
    simp only [if_true]
    rw [(foldPrevious_skeleton _ _).2.2.2.2]
    exact foldCurrent_focus _ hd p h0 hD

theorem bucketResult_prevHours {p : ChartDataPoint} (ss : List WorkSession)
    (r : DateRange) (hc : isCent p.previousHours) :
    (bucketResult ss r true p).previousHours
      = p.previousHours + Dsum (prevContribs ss r p.date) := by
  unfold bucketResult
  simp only [if_true]
  rw [foldPrevious_hours _ _ (by
    rw [(foldCurrent_skeleton _ _).2.2.2.1]
    exact hc)]
  rw [(foldCurrent_skeleton _ _).2.2.2.1]

theorem bucketResult_prevFocus {p : ChartDataPoint} (ss : List WorkSession)
    (r : DateRange) (hd : ∀ s ∈ prevContribs ss r p.date, 0 ≤ durationInHours s)
    (h0 : p.previousHours = 0) (hD : Dsum (prevContribs ss r p.date) ≠ 0) :
    (bucketResult ss r true p).previousFocusLevel
      = QDsum (prevContribs ss r p.date) / Dsum (prevContribs ss r p.date) := by
  unfold bucketResult
  simp only [if_true]
  exact foldPrevious_focus _ hd _ (by
    rw [(foldCurrent_skeleton _ _).2.2.2.1]
    exact h0) hD

theorem bucketResult_prevHours_false (ss : List WorkSession) (r : DateRange)
    (p : ChartDataPoint) :
    (bucketResult ss r false p).previousHours = p.previousHours ∧
    (bucketResult ss r false p).previousFocusLevel = p.previousFocusLevel := by
  unfold bucketResult
  exact ⟨(foldCurrent_skeleton _ _).2.2.2.1, (foldCurrent_skeleton _ _).2.2.2.2⟩

theorem chartData_dates (ss : List WorkSession) (r : DateRange) (today : Int)
    (cmp : Bool) :
    (chartData ss r today cmp).map (fun p => p.date)
      = (enumDates r.start r.stop).map dayOf := by
  rw [chartData_closed, List.map_map]
  have h : ∀ p ∈ basePoints r today cmp,
      ((fun p : ChartDataPoint => p.date) ∘ bucketResult ss r cmp) p
        = (fun p : ChartDataPoint => p.date) p := by
    intro p _
    simp only [Function.comp_apply]
    exact bucketResult_date ss r cmp p
  rw [List.map_congr_left h]
  exact basePoints_dates r today cmp

/-- C5 counterexample: the valid window from day 0 at 23:00 to day 1 at
01:00 (start ≤ end) yields exactly one bucket, for day 0 — the window end's
calendar day 1 gets no bucket, so the output is not one bucket per calendar
day from the start's date to the end's date inclusive. -/
theorem bucketsPerDay_counterexample :
    ((chartData [] ⟨82800000, 90000000⟩ 0 false).map fun p => p.date) = [0] ∧
    dayOf 90000000 = 1 := ⟨rfl, rfl⟩

/-- C5 amended: for a valid window the buckets are one per 24-hour step of
the loop (dates `dayOf start + k`, `k < numDaysN`), strictly ascending, and
any bucket with no attributed records keeps `totalDuration = 0`; whenever
the window end's time-of-day is not earlier than the window start's (true of
every window the UI can install) the bucket dates are exactly every calendar
day from the start's date to the end's date inclusive. -/
theorem aggregator_buckets_per_day (ss : List WorkSession) (r : DateRange)
    (today : Int) (cmp : Bool) (h1 : r.start ≤ r.stop) :
    ((chartData ss r today cmp).map fun p => p.date)
        = (List.range (numDaysN r.start r.stop)).map
            (fun k : ℕ => dayOf r.start + (k : Int)) ∧
    ((chartData ss r today cmp).map fun p => p.date).Pairwise (· < ·) ∧
    (∀ p ∈ chartData ss r today cmp, currContribs ss r p.date = [] → p.hours = 0) ∧
    (msOfDay r.start ≤ msOfDay r.stop →
      ∀ d : Int, (d ∈ (chartData ss r today cmp).map fun p => p.date)
        ↔ dayOf r.start ≤ d ∧ d ≤ dayOf r.stop) := by
  have hdates := chartData_dates ss r today cmp
  refine ⟨?_, ?_, ?_, ?_⟩
  · rw [hdates]
    exact enumDates_days r.start r.stop
  · rw [hdates, enumDates_days]
    refine List.Pairwise.map _ ?_ (List.pairwise_lt_range _)
    intro a b hab
    omega
  · intro p hp hc
    rw [chartData_closed, List.mem_map] at hp
    obtain ⟨p0, hp0, rfl⟩ := hp
    rw [bucketResult_date] at hc
    have h0 := (basePoints_mem_fields hp0).1
    rw [bucketResult_hours ss r cmp (by rw [h0]; exact isCent_zero), h0, hc]
    simp [Dsum]
  · intro h2 d
    rw [hdates, mem_enumDates_days]
    have hcnt := numDaysN_of_msOfDay h1 h2
    omega

theorem aggregator_buckets_per_day_witness :
    (0:Int) ≤ 86399999 ∧
    ((chartData [] ⟨0, 86399999⟩ 0 false).map fun p => p.date)
      = (List.range (numDaysN 0 86399999)).map (fun k : ℕ => dayOf 0 + (k : Int)) :=
  ⟨by decide, (aggregator_buckets_per_day [] ⟨0, 86399999⟩ 0 false (by decide)).1⟩

/-- C7 counterexample: for a window with zero matching records the bucket's
score field is present and equal to the number 0, not an undefined/absent
value — `focusLevel` is a plain (non-optional) number field initialised to 0
and left untouched. -/
theorem emptyBucket_score_counterexample :
    (chartData [] ⟨0, 86399999⟩ 0 false).map (fun p => p.focusLevel) = [0] ∧
    (chartData [] ⟨0, 86399999⟩ 0 false).map (fun p => p.hours) = [0] := ⟨rfl, rfl⟩

/-- C7 amended: every bucket with no attributed records has
`totalDuration = 0` and carries the sentinel number 0 in its score field
(the field is always a number, never absent); in particular for a window
with zero matching records every bucket has `hours = 0` and
`focusLevel = 0`. -/
theorem emptyBuckets_zero (ss : List WorkSession) (r : DateRange) (today : Int)
    (cmp : Bool) :
    (∀ p ∈ chartData ss r today cmp, currContribs ss r p.date = [] →
      p.hours = 0 ∧ p.focusLevel = 0) ∧
    (windowFilter r ss = [] → ∀ p ∈ chartData ss r today cmp,
      p.hours = 0 ∧ p.focusLevel = 0) := by
  have hA : ∀ p ∈ chartData ss r today cmp, currContribs ss r p.date = [] →
      p.hours = 0 ∧ p.focusLevel = 0 := by
    intro p hp hc
    rw [chartData_closed, List.mem_map] at hp
    obtain ⟨p0, hp0, rfl⟩ := hp
    rw [bucketResult_date] at hc
    have hf := basePoints_mem_fields hp0
    constructor
    · rw [bucketResult_hours ss r cmp (by rw [hf.1]; exact isCent_zero), hf.1, hc]
      simp [Dsum]
    · show (bucketResult ss r cmp p0).focusLevel = 0
      unfold bucketResult
      rw [hc]
      simp only [List.foldl_nil]
      cases cmp with
      | false => exact hf.2.1
      | true =>
        simp only [if_true]
        rw [(foldPrevious_skeleton _ _).2.2.2.2]
        exact hf.2.1
  refine ⟨hA, ?_⟩
  intro hw p hp
  refine hA p hp ?_
  unfold currContribs
  rw [hw]
  rfl

theorem emptyBuckets_zero_witness :
    windowFilter ⟨0, 86399999⟩ [] = [] ∧
    ∀ p ∈ chartData [] ⟨0, 86399999⟩ 5 true, p.hours = 0 ∧ p.focusLevel = 0 :=
  ⟨rfl, (emptyBuckets_zero [] ⟨0, 86399999⟩ 5 true).2 rfl⟩

/-- C2 counterexample: two same-day records, 30 s at score 10 and 1 h at
score 1, in a one-day window.  The aggregator reports the weighted score
110/101 (computed from durations rounded to 1/100 h), while the exact
duration-weighted mean of the records is 130/121 — accumulation is not
performed at full precision. -/
theorem weightedScore_counterexample :
    (chartData [⟨0, 30, 10⟩, ⟨36000, 39600, 1⟩] ⟨0, 86399999⟩ 0 false).map
        (fun p => p.focusLevel) = [110/101] ∧
    exactWeightedMean [⟨0, 30, 10⟩, ⟨36000, 39600, 1⟩] = 130/121 ∧
    (110/101 : ℚ) ≠ 130/121 := by
  refine ⟨?_, ?_, by norm_num⟩
  · norm_num [chartData, processSessions, basePoints, enumDates, enumDates.go, dayMs,
      dayOf, windowFilter, startOfDay, endOfDay, sessionStartMs, sessionDay,
      updateFirst, addCurrent, durationInHours, round2, jsRound, Int.fdiv]
  · norm_num [exactWeightedMean]

/-- C2 amended: each bucket's total is the sum of the rounded durations
(`Math.round(seconds/36)/100` hours) of its attributed records, and whenever
that total is nonzero the bucket's score is the rounded-duration-weighted
mean of their scores; consequently, in exact rational arithmetic, the dates,
totals, and (for buckets with nonzero total) weighted scores are identical
for every insertion order of well-formed records. -/
theorem weightedScore_roundedMean (ss ss2 : List WorkSession) (r : DateRange)
    (today : Int) (cmp : Bool)
    (hwf : ∀ s ∈ ss, s.startSeconds ≤ s.endSeconds)
    (hperm : ss.Perm ss2) :
    (∀ p ∈ chartData ss r today cmp,
      p.hours = Dsum (currContribs ss r p.date) ∧
      (p.hours ≠ 0 → p.focusLevel
        = QDsum (currContribs ss r p.date) / Dsum (currContribs ss r p.date))) ∧
    (chartData ss r today cmp).map
        (fun p => (p.date, p.hours, if p.hours = 0 then none else some p.focusLevel))
      = (chartData ss2 r today cmp).map
        (fun p => (p.date, p.hours, if p.hours = 0 then none else some p.focusLevel)) := by
  have hchar : ∀ (l : List WorkSession), (∀ s ∈ l, s.startSeconds ≤ s.endSeconds) →
      ∀ p ∈ chartData l r today cmp,
      p.hours = Dsum (currContribs l r p.date) ∧
      (p.hours ≠ 0 → p.focusLevel
        = QDsum (currContribs l r p.date) / Dsum (currContribs l r p.date)) := by
    intro l hl p hp
    rw [chartData_closed, List.mem_map] at hp
    obtain ⟨p0, hp0, rfl⟩ := hp
    have hf := basePoints_mem_fields hp0
    have hd : ∀ s ∈ currContribs l r p0.date, 0 ≤ durationInHours s := by
      intro s hs
      unfold currContribs windowFilter at hs
      rw [List.mem_filter] at hs
      have hs1 := hs.1
      rw [List.mem_filter] at hs1
      exact durationInHours_nonneg (hl s hs1.1)
    have hh : (bucketResult l r cmp p0).hours = Dsum (currContribs l r p0.date) := by
      rw [bucketResult_hours l r cmp (by rw [hf.1]; exact isCent_zero), hf.1, zero_add]
    constructor
    · rw [bucketResult_date, hh]
    · intro hne
      rw [bucketResult_date]
      refine bucketResult_focus l r cmp hd hf.1 ?_
      rw [← hh]
      exact hne
  refine ⟨hchar ss hwf, ?_⟩
  rw [chartData_closed, chartData_closed, List.map_map, List.map_map]
  apply List.map_congr_left
  intro p0 hp0
  have hf := basePoints_mem_fields hp0
  have hwf2 : ∀ s ∈ ss2, s.startSeconds ≤ s.endSeconds :=
    fun s hs => hwf s (hperm.mem_iff.mpr hs)
  have hpermC : (currContribs ss r p0.date).Perm (currContribs ss2 r p0.date) := by
    unfold currContribs windowFilter
    exact (hperm.filter _).filter _
  have hDeq : Dsum (currContribs ss r p0.date) = Dsum (currContribs ss2 r p0.date) := by
    unfold Dsum
    exact (hpermC.map durationInHours).sum_eq
  have hQeq : QDsum (currContribs ss r p0.date) = QDsum (currContribs ss2 r p0.date) := by
    unfold QDsum
    exact (hpermC.map _).sum_eq
  have hd1 : ∀ s ∈ currContribs ss r p0.date, 0 ≤ durationInHours s := by
    intro s hs
    unfold currContribs windowFilter at hs
    rw [List.mem_filter] at hs
    have hs1 := hs.1
    rw [List.mem_filter] at hs1
    exact durationInHours_nonneg (hwf s hs1.1)
  have hd2 : ∀ s ∈ currContribs ss2 r p0.date, 0 ≤ durationInHours s := by
    intro s hs
    unfold currContribs windowFilter at hs
    rw [List.mem_filter] at hs
    have hs1 := hs.1
    rw [List.mem_filter] at hs1
    exact durationInHours_nonneg (hwf2 s hs1.1)
  have hh1 : (bucketResult ss r cmp p0).hours = Dsum (currContribs ss r p0.date) := by
    rw [bucketResult_hours ss r cmp (by rw [hf.1]; exact isCent_zero), hf.1, zero_add]
  have hh2 : (bucketResult ss2 r cmp p0).hours = Dsum (currContribs ss2 r p0.date) := by
    rw [bucketResult_hours ss2 r cmp (by rw [hf.1]; exact isCent_zero), hf.1, zero_add]
  simp only [Function.comp_apply, Prod.mk.injEq]
  refine ⟨by rw [bucketResult_date, bucketResult_date], ?_, ?_⟩
  · rw [hh1, hh2, hDeq]
  · by_cases hz : Dsum (currContribs ss r p0.date) = 0
    · rw [if_pos (by rw [hh1, hz]), if_pos (by rw [hh2, ← hDeq, hz])]
    · rw [if_neg (by rw [hh1]; exact hz), if_neg (by rw [hh2, ← hDeq]; exact hz)]
      rw [bucketResult_focus ss r cmp hd1 hf.1 hz,
        bucketResult_focus ss2 r cmp hd2 hf.1 (by rw [← hDeq]; exact hz),
        hDeq, hQeq]

theorem weightedScore_roundedMean_witness :
    (∀ s ∈ [(⟨0, 7200, 8⟩ : WorkSession), ⟨36000, 39600, 5⟩],
      s.startSeconds ≤ s.endSeconds) ∧
    (chartData [⟨0, 7200, 8⟩, ⟨36000, 39600, 5⟩] ⟨0, 86399999⟩ 0 false).map
        (fun p => (p.date, p.hours, if p.hours = 0 then none else some p.focusLevel))
      = (chartData [⟨36000, 39600, 5⟩, ⟨0, 7200, 8⟩] ⟨0, 86399999⟩ 0 false).map
        (fun p => (p.date, p.hours, if p.hours = 0 then none else some p.focusLevel)) :=
  ⟨by decide,
   (weightedScore_roundedMean [⟨0, 7200, 8⟩, ⟨36000, 39600, 5⟩]
      [⟨36000, 39600, 5⟩, ⟨0, 7200, 8⟩] ⟨0, 86399999⟩ 0 false (by decide)
      (List.Perm.swap _ _ _)).2⟩

/-- C9: concrete scenario A — window = the single day 2024-01-01 (epoch day
19723) from 00:00 to 23:59:59, two sessions that day of 2 h (score 8) and
1 h (score 5): the aggregator returns exactly one bucket with 3 total hours
and weighted score (8*2+5*1)/3 = 7. -/
theorem concreteScenarioA :
    chartData [⟨1704099600, 1704106800, 8⟩, ⟨1704110400, 1704114000, 5⟩]
      ⟨19723 * 86400000, 19723 * 86400000 + 86399000⟩ 0 false =
    [{ date := 19723, hours := 3, focusLevel := 7, isToday := false,
       previousHours := 0, previousFocusLevel := 0, comparisonDate := none }] := by
  norm_num [chartData, processSessions, basePoints, enumDates, enumDates.go, dayMs,
    dayOf, windowFilter, startOfDay, endOfDay, sessionStartMs, sessionDay,
    updateFirst, addCurrent, durationInHours, round2, jsRound, Int.fdiv]

/-- C6 counterexample: window = day 1 from 12:00 to 20:00, one session on
day 1 from 02:00 to 03:00 (score 5).  Under the claim's normalised
previous-window filtering the session belongs to the previous period and
contributes 1 previous hour to the day-1 bucket; the source filters the
previous period by the raw bounds `[day1 04:00-1ms, day1 12:00-1ms]`, so it
reports 0 previous hours. -/
theorem prevWindow_normalization_counterexample :
    (chartData [⟨93600, 97200, 5⟩] ⟨129600000, 158400000⟩ 0 true).map
        (fun p => p.previousHours) = [0] ∧
    (chartDataNormalizedPrev [⟨93600, 97200, 5⟩] ⟨129600000, 158400000⟩ 0 true).map
        (fun p => p.previousHours) = [1] := by
  constructor <;>
    norm_num [chartData, chartDataNormalizedPrev, processSessions, basePoints,
      enumDates, enumDates.go, dayMs, dayOf, windowFilter, prevFilter,
      getPreviousPeriodDates, startOfDay, endOfDay, sessionStartMs, sessionDay,
      updateFirst, addCurrent, addPrevious, durationInHours, round2, jsRound,
      Int.fdiv]

/-- C6 amended: with comparison on, the previous period is
`[window.start - 1 - duration, window.start - 1]` (one millisecond, not one
day, before the window); previous-period records are filtered by these RAW
bounds with no start/end-of-day normalisation; each surviving record is
attributed — with the same rounded-duration accumulation as the current
period — to the bucket whose date is the local day of its start shifted by
`window.end - previousEnd`; records aligned to no bucket are dropped
silently (bucket dates are unchanged by the comparison pass); and every
bucket carries `comparisonDate = dayOf(bucket instant - window duration)`. -/
theorem comparison_rawBounds_alignment (ss : List WorkSession) (r : DateRange)
    (today : Int) (hwf : ∀ s ∈ ss, s.startSeconds ≤ s.endSeconds) :
    getPreviousPeriodDates r.start r.stop
        = ⟨r.start - 1 - (r.stop - r.start), r.start - 1⟩ ∧
    (∀ p ∈ chartData ss r today true,
      p.previousHours = Dsum (prevContribs ss r p.date) ∧
      (p.previousHours ≠ 0 → p.previousFocusLevel
        = QDsum (prevContribs ss r p.date) / Dsum (prevContribs ss r p.date))) ∧
    ((chartData ss r today true).map fun p => p.date)
      = ((chartData ss r today false).map fun p => p.date) ∧
    ((chartData ss r today true).map fun p => p.comparisonDate)
      = (enumDates r.start r.stop).map
          (fun cur => some (dayOf (cur - (r.stop - r.start)))) := by
  refine ⟨rfl, ?_, ?_, ?_⟩
  · intro p hp
    rw [chartData_closed, List.mem_map] at hp
    obtain ⟨p0, hp0, rfl⟩ := hp
    have hf := basePoints_mem_fields hp0
    have hd : ∀ s ∈ prevContribs ss r p0.date, 0 ≤ durationInHours s := by
      intro s hs
      unfold prevContribs prevFilter at hs
      rw [List.mem_filter] at hs
      have hs1 := hs.1
      rw [List.mem_filter] at hs1
      exact durationInHours_nonneg (hwf s hs1.1)
    have hh : (bucketResult ss r true p0).previousHours
        = Dsum (prevContribs ss r p0.date) := by
      rw [bucketResult_prevHours ss r (by rw [hf.2.2.1]; exact isCent_zero),
        hf.2.2.1, zero_add]
    constructor
    · rw [bucketResult_date, hh]
    · intro hne
      rw [bucketResult_date]
      refine bucketResult_prevFocus ss r hd hf.2.2.1 ?_
      rw [← hh]
      exact hne
  · rw [chartData_dates, chartData_dates]
  · rw [chartData_closed, List.map_map]
    have h : ∀ p ∈ basePoints r today true,
        ((fun p : ChartDataPoint => p.comparisonDate) ∘ bucketResult ss r true) p
          = (fun p : ChartDataPoint => p.comparisonDate) p := by
      intro p _
      simp only [Function.comp_apply]
      exact bucketResult_comparisonDate ss r true p
    rw [List.map_congr_left h]
    unfold basePoints
    rw [List.map_map]
    apply List.map_congr_left
    intro cur _
    simp

theorem comparison_rawBounds_alignment_witness :
    (∀ s ∈ ([] : List WorkSession), s.startSeconds ≤ s.endSeconds) ∧
    getPreviousPeriodDates 0 86399999 = ⟨0 - 1 - (86399999 - 0), 0 - 1⟩ :=
  ⟨by decide, (comparison_rawBounds_alignment [] ⟨0, 86399999⟩ 0 (by decide)).1⟩
